import Mathlib

/-!
Verification development for the session-state broadcast and reconciliation
subsystem of auditaria-cli.

Server side (`packages/cli/src/services/WebInterfaceService.ts` and the
tool-confirmation context): broadcast hub state, bootstrap on connection,
fan-out with per-connection fault isolation, port binding with one
EADDRINUSE fallback, and the confirmation round-trip.

Client side (`packages/web-client/src/managers/MessageManager.js`): the
reconciliation engine.  The DOM container is modelled as an explicit ordered
list of rendered elements; CSS classes `message-pending-text` and
`message-pending-tools` become boolean flags; `Date.now()` becomes an
explicit `now : Nat` argument; JS `Map`s keyed by `callId` become
insertion-ordered association lists.  JS truthiness tests on `tool.callId`
are modelled as inequality with the empty string.
-/

namespace Auditaria

/-! ## Client-side data model (MessageManager.js) -/

/-- Tool call status; terminal values are Success, Error, Canceled
(MessageManager.js line 78). -/
inductive ToolStatus
  | pendingS
  | confirming
  | executing
  | success
  | errorS
  | canceled
deriving DecidableEq, Repr

/-- The three statuses treated as terminal in `addHistoryItem`. -/
def ToolStatus.isTerminal : ToolStatus → Bool
  | .success => true
  | .errorS => true
  | .canceled => true
  | _ => false

/-- One tool call as carried in a history or pending item. -/
structure Tool where
  callId : String
  name : String
  status : ToolStatus
deriving DecidableEq, Repr

/-- A client-side history or pending item.  `type` is the JS string tag
(gemini, gemini_content, tool_group, user, ...); `id` is the entry's own
creation timestamp carried in the payload. -/
structure Item where
  type : String
  text : String
  tools : List Tool
  id : Nat
deriving DecidableEq, Repr

/-- A JS `Map<callId, tool>` as an insertion-ordered association list. -/
abbrev CallMap := List (String × Tool)

/-- `map.has(k)`. -/
def mapHas (k : String) (m : CallMap) : Bool :=
  m.any (fun p => p.1 = k)

/-- `map.set(k, v)`: replaces in place when the key exists, appends
otherwise (JS Map keeps insertion order). -/
def mapSet (k : String) (v : Tool) (m : CallMap) : CallMap :=
  if mapHas k m then m.map (fun p => if p.1 = k then (k, v) else p)
  else m ++ [(k, v)]

/-- `Array.from(map.values())`. -/
def mapValues (m : CallMap) : List Tool :=
  m.map Prod.snd

/-- One rendered DOM element in the messages container.  `pendingText` and
`pendingTools` model the classes `message-pending-text` and
`message-pending-tools`; `tstamp` the displayed timestamp. -/
structure RenderedMsg where
  elemId : Nat
  type : String
  content : String
  tools : List Tool
  pendingText : Bool
  pendingTools : Bool
  tstamp : Nat
deriving DecidableEq, Repr

/-- The `lastAIMessage` tracking record. -/
structure LastAI where
  elemId : Nat
  text : String
  timestamp : Nat
  type : String
deriving DecidableEq, Repr

/-- Value stored in `pendingToolGroups` for one group handle. -/
structure GroupData where
  elemId : Nat
  tools : CallMap
  tstamp : Nat
deriving DecidableEq, Repr

/-- The MessageManager state.  `container` is the ordered list of DOM
children; `pendingToolGroups` the insertion-ordered
`Map<messageId, groupData>` (message ids modelled as fresh naturals);
`nextId` supplies fresh DOM element / group ids. -/
structure MMState where
  container : List RenderedMsg
  messageCount : Nat
  lastAIMessage : Option LastAI
  pendingToolGroups : List (Nat × GroupData)
  completedToolCallIds : List String
  nextId : Nat
deriving DecidableEq, Repr

/-- `mergeTimeframe = 10000` (10 seconds, MessageManager.js line 18). -/
def mergeTimeframe : Nat := 10000

/-- Fresh MessageManager state (constructor). -/
def mmInit : MMState :=
  { container := [], messageCount := 0, lastAIMessage := none,
    pendingToolGroups := [], completedToolCallIds := [], nextId := 0 }

/-- Modelled from the spec: `isAIMessage` lives in the missing
`utils/formatters.js`; per the spec the agent_text kind is carried by the
types gemini and gemini_content (the same two types MessageManager's own
pending-conversion branch tests). -/
def isAIMessage (item : Item) : Bool :=
  item.type = "gemini" || item.type = "gemini_content"

/-- Modelled from the spec: `getMessageContent` lives in the missing
`utils/formatters.js`; an agent_text entry's payload is its text. -/
def getMessageContent (item : Item) : String :=
  item.text

/-- `querySelector of message-pending-text`: first pending-text element in
document order. -/
def findPendingText (s : MMState) : Option RenderedMsg :=
  s.container.find? (fun e => e.pendingText)

/-- `canMergeWithLast`: a lastAIMessage exists, the item is an AI message,
and `now - lastAIMessage.timestamp <= mergeTimeframe`. -/
def canMergeWithLast (s : MMState) (item : Item) (now : Nat) : Bool :=
  match s.lastAIMessage with
  | none => false
  | some la => isAIMessage item && (now - la.timestamp ≤ mergeTimeframe)

/-- `mergeWithLastAIMessage`: concatenates the new content onto the tracked
last AI element separated by a blank line, updates its timestamp, and
returns true; returns false when there is no last AI message. -/
def mergeWithLastAIMessage (s : MMState) (item : Item) (now : Nat) :
    MMState × Bool :=
  match s.lastAIMessage with
  | none => (s, false)
  | some la =>
    let combined := la.text ++ "\n\n" ++ getMessageContent item
    let container := s.container.map (fun e =>
      if e.elemId = la.elemId then { e with content := combined, tstamp := now }
      else e)
    ({ s with
        container := container,
        lastAIMessage := some { la with text := combined, timestamp := now } },
      true)

/-- `convertPendingToFinal`: drop the pending-text class, write the final
content and timestamp, track the element as last AI message, bump the
message count. -/
def convertPendingToFinal (s : MMState) (elemId : Nat) (item : Item)
    (now : Nat) : MMState :=
  let container := s.container.map (fun e =>
    if e.elemId = elemId then
      { e with pendingText := false, content := getMessageContent item,
               tstamp := now }
    else e)
  { s with
      container := container,
      lastAIMessage := some
        { elemId := elemId, text := getMessageContent item, timestamp := now,
          type := item.type },
      messageCount := s.messageCount + 1 }

/-- Number of tools of `tools` whose (truthy) callId is present in the
group's call map: the loop body of `findMatchingPendingToolGroup`. -/
def matchCount (tools : List Tool) (g : GroupData) : Nat :=
  tools.countP (fun t => t.callId ≠ "" ∧ mapHas t.callId g.tools)

/-- The scan of `findMatchingPendingToolGroup`: keeps the first group whose
match count strictly exceeds the running maximum. -/
def findBest (tools : List Tool) :
    List (Nat × GroupData) → Option (Nat × GroupData) × Nat →
    Option (Nat × GroupData) × Nat
  | [], acc => acc
  | p :: rest, (bm, maxM) =>
    let mc := matchCount tools p.2
    findBest tools rest (if maxM < mc then (some p, mc) else (bm, maxM))

/-- `findMatchingPendingToolGroup`: best match by number of shared callIds,
null when no group shares any. -/
def findMatchingPendingToolGroup (s : MMState) (tools : List Tool) :
    Option (Nat × GroupData) :=
  if tools.isEmpty then none
  else (findBest tools s.pendingToolGroups (none, 0)).1

/-- `updatePendingToolGroupToFinal`: finalize the matched group's element in
place, delete the group from the index, then remove outright every other
pending group sharing any callId with the finalized set (and its element). -/
def updatePendingToolGroupToFinal (s : MMState) (mid : Nat) (g : GroupData)
    (item : Item) (now : Nat) : MMState :=
  let container := s.container.map (fun e =>
    if e.elemId = g.elemId then
      { e with pendingTools := false, tools := item.tools, tstamp := now }
    else e)
  let rest := s.pendingToolGroups.filter (fun p => p.1 ≠ mid)
  let completedCallIds := item.tools.map Tool.callId
  let overlaps : Nat × GroupData → Bool := fun p =>
    completedCallIds.any (fun c => c ≠ "" && mapHas c p.2.tools)
  let toDelete := rest.filter overlaps
  let container := container.filter (fun e =>
    !(toDelete.any (fun p => p.2.elemId = e.elemId)))
  { s with
      container := container,
      pendingToolGroups := rest.filter (fun p => !(overlaps p)),
      messageCount := s.messageCount + 1 }

/-- `createMessageWithCopy` + `appendChild` + count/tracking tail of
`addHistoryItem` (also the loop body of `loadHistoryItems`). -/
def addNewMessage (s : MMState) (item : Item) (now : Nat) : MMState :=
  let elem : RenderedMsg :=
    { elemId := s.nextId, type := item.type,
      content := getMessageContent item, tools := item.tools,
      pendingText := false, pendingTools := false, tstamp := now }
  { s with
      container := s.container ++ [elem],
      nextId := s.nextId + 1,
      messageCount := s.messageCount + 1,
      lastAIMessage :=
        if isAIMessage item then
          some { elemId := s.nextId, text := getMessageContent item,
                 timestamp := now, type := item.type }
        else none }

/-- The shared tail of `addHistoryItem` (lines 93-119): merge with the last
AI message when possible, otherwise append a regular new message. -/
def addHistoryItemTail (s : MMState) (item : Item) (now : Nat) : MMState :=
  if isAIMessage item && canMergeWithLast s item now then
    let r := mergeWithLastAIMessage s item now
    if r.2 then r.1 else addNewMessage s item now
  else addNewMessage s item now

/-- `addHistoryItem` (MessageManager.js lines 49-120).  For gemini /
gemini_content items with a live pending-text element: merge into the last
AI message (after removing the pending element) when inside the merge
window, otherwise convert the pending element to final in place.  For
tool_group items: record terminal callIds, then either finalize the best
matching pending group in place or fall through to the shared tail.  All
other items go straight to the shared tail. -/
def addHistoryItem (s : MMState) (item : Item) (now : Nat) : MMState :=
  if item.type = "gemini" ∨ item.type = "gemini_content" then
    match findPendingText s with
    | some pel =>
      if isAIMessage item && canMergeWithLast s item now then
        let s1 := { s with
          container := s.container.filter (fun e => e.elemId ≠ pel.elemId) }
        let r := mergeWithLastAIMessage s1 item now
        if r.2 then r.1 else convertPendingToFinal s1 pel.elemId item now
      else convertPendingToFinal s pel.elemId item now
    | none => addHistoryItemTail s item now
  else if item.type = "tool_group" then
    let s1 := { s with
      completedToolCallIds := s.completedToolCallIds ++
        ((item.tools.filter
            (fun t => t.callId ≠ "" ∧ t.status.isTerminal)).map Tool.callId) }
    match findMatchingPendingToolGroup s1 item.tools with
    | some mg => updatePendingToolGroupToFinal s1 mg.1 mg.2 item now
    | none => addHistoryItemTail s1 item now
  else addHistoryItemTail s item now

/-- `updatePendingTextMessage`: create the pending-text element if absent,
otherwise update its content and timestamp in place. -/
def updatePendingTextMessage (s : MMState) (item : Item) (now : Nat) :
    MMState :=
  match findPendingText s with
  | none =>
    let elem : RenderedMsg :=
      { elemId := s.nextId, type := item.type,
        content := getMessageContent item, tools := item.tools,
        pendingText := true, pendingTools := false, tstamp := now }
    { s with container := s.container ++ [elem], nextId := s.nextId + 1 }
  | some pel =>
    { s with container := s.container.map (fun e =>
        if e.elemId = pel.elemId then
          { e with content := getMessageContent item, tstamp := now }
        else e) }

/-- `updatePendingToolGroup` (MessageManager.js lines 283-364): drop tools
whose callId is already terminal-seen; ignore the update when none survive;
merge into the first pending group sharing any surviving callId, or create
a new pending group and append its element. -/
def updatePendingToolGroup (s : MMState) (item : Item) (now : Nat) :
    MMState :=
  let tools := item.tools.filter
    (fun t => !(t.callId ≠ "" ∧ t.callId ∈ s.completedToolCallIds))
  if tools.isEmpty then s
  else
    match s.pendingToolGroups.find? (fun p =>
        tools.any (fun t => t.callId ≠ "" && mapHas t.callId p.2.tools)) with
    | none =>
      let toolsMap := tools.foldl
        (fun m t => if t.callId ≠ "" then mapSet t.callId t m else m) []
      let elem : RenderedMsg :=
        { elemId := s.nextId, type := item.type,
          content := getMessageContent item, tools := tools,
          pendingText := false, pendingTools := true, tstamp := now }
      { s with
          container := s.container ++ [elem],
          pendingToolGroups := s.pendingToolGroups ++
            [(s.nextId,
              { elemId := s.nextId, tools := toolsMap, tstamp := now })],
          nextId := s.nextId + 1 }
    | some mg =>
      let newTools := tools.foldl
        (fun m t =>
          if t.callId ≠ "" ∧ ¬ t.callId ∈ s.completedToolCallIds then
            mapSet t.callId t m
          else m)
        mg.2.tools
      { s with
          container := s.container.map (fun e =>
            if e.elemId = mg.2.elemId then
              { e with tools := mapValues newTools, tstamp := now }
            else e),
          pendingToolGroups := s.pendingToolGroups.map (fun p =>
            if p.1 = mg.1 then (p.1, { p.2 with tools := newTools }) else p) }

/-- `clearAllPendingToolGroups`: remove every pending-tools element and
clear the tracking map. -/
def clearAllPendingToolGroups (s : MMState) : MMState :=
  { s with
      container := s.container.filter (fun e => !e.pendingTools),
      pendingToolGroups := [] }

/-- `clearPendingTextMessage`: remove the (first) pending-text element. -/
def clearPendingTextMessage (s : MMState) : MMState :=
  { s with container := s.container.eraseP (fun e => e.pendingText) }

/-- `updatePendingItem`: null clears all pending projections; tool_group
items go to the pending-group path; everything else is pending text. -/
def updatePendingItem (s : MMState) (item : Option Item) (now : Nat) :
    MMState :=
  match item with
  | none => clearPendingTextMessage (clearAllPendingToolGroups s)
  | some it =>
    if it.type = "tool_group" then updatePendingToolGroup s it now
    else updatePendingTextMessage s it now

/-- The loop body of `loadHistoryItems`: merge an AI entry into the last
one when inside the merge window (measured against the wall clock `now`),
otherwise append a regular message tracked for future merging. -/
def loadHistoryStep (now : Nat) (st : MMState) (it : Item) : MMState :=
  if isAIMessage it && canMergeWithLast st it now then
    let r := mergeWithLastAIMessage st it now
    if r.2 then r.1 else addNewMessage st it now
  else addNewMessage st it now

/-- `loadHistoryItems` (MessageManager.js lines 443-482): wipe the
container, the counters, the last-AI tracking, the pending-group index and
the terminal-seen set, then replay the entries through the merge-or-append
loop.  Every iteration reads the same wall clock `now` (`Date.now()` during
one synchronous loop). -/
def loadHistoryItems (s : MMState) (items : List Item) (now : Nat) :
    MMState :=
  let s0 : MMState :=
    { container := [], messageCount := 0, lastAIMessage := none,
      pendingToolGroups := [], completedToolCallIds := [],
      nextId := s.nextId }
  items.foldl (loadHistoryStep now) s0

/-- `clearAllMessages`. -/
def clearAllMessages (s : MMState) : MMState :=
  { s with
      container := [], messageCount := 0, lastAIMessage := none,
      pendingToolGroups := [], completedToolCallIds := [] }

/-! ## Server-side data model (WebInterfaceService.ts) -/

/-- A server history entry, opaque to the hub. -/
structure SrvItem where
  sid : Nat
deriving DecidableEq, Repr

/-- The transformed MCP servers snapshot. -/
structure MCPData where
  servers : List Nat
  blockedServers : List Nat
deriving DecidableEq, Repr

/-- The stored CLI action-required state. -/
structure CliAction where
  active : Bool
  reason : String
  title : String
  message : String
deriving DecidableEq, Repr

/-- A pending tool confirmation (ToolConfirmationContext). -/
structure PendingConf where
  callId : String
  toolName : String
  tstamp : Nat
deriving DecidableEq, Repr

/-- Wire envelopes the hub can send to a viewer. -/
inductive WireMsg
  | connectionMsg (text : String)
  | historySync (history : List SrvItem)
  | historyItem (item : SrvItem)
  | pendingItem (item : Option SrvItem)
  | footerData (d : Nat)
  | loadingState (d : Nat)
  | consoleMessages (msgs : List Nat)
  | slashCommands (cmds : List Nat)
  | mcpServers (data : MCPData)
  | cliActionRequired (a : CliAction)
  | toolConfirmationMsg (c : PendingConf)
  | toolConfirmationRemoval (callId : String)
  | clearMsg
deriving DecidableEq, Repr

/-- One registered viewer connection; `isOpen` models
`readyState === WebSocket.OPEN`. -/
structure Client where
  cid : Nat
  isOpen : Bool
deriving DecidableEq, Repr

/-- The WebInterfaceService state relevant to broadcasting and bootstrap. -/
structure WebState where
  isRunning : Bool
  clients : List Client
  currentHistory : List SrvItem
  currentSlashCommands : List Nat
  currentMCPServers : MCPData
  currentConsoleMessages : List Nat
  currentCliActionState : Option CliAction
deriving DecidableEq, Repr

/-- The shared fan-out loop of every `broadcastXxx` method: skip entirely
when not running or no clients; otherwise send to each open client inside a
per-client try/catch, deleting a client from the registry when it is not
open or its send throws (`sendFails`).  Returns the new state and the list
of (client id, message) deliveries. -/
def fanOut (s : WebState) (msg : WireMsg) (sendFails : Nat → Bool) :
    WebState × List (Nat × WireMsg) :=
  if s.isRunning = false ∨ s.clients = [] then (s, [])
  else
    let kept := s.clients.filter (fun c => c.isOpen && !(sendFails c.cid))
    ({ s with clients := kept }, kept.map (fun c => (c.cid, msg)))

/-- `broadcastMessage`: serialize one history_item envelope and fan it out.
It does not touch `currentHistory`. -/
def broadcastMessage (s : WebState) (item : SrvItem)
    (sendFails : Nat → Bool) : WebState × List (Nat × WireMsg) :=
  fanOut s (.historyItem item) sendFails

/-- `setCurrentHistory`: wholesale replacement of the stored log. -/
def setCurrentHistory (s : WebState) (history : List SrvItem) : WebState :=
  { s with currentHistory := history }

/-- `broadcastFooterData`: fan-out only, nothing stored. -/
def broadcastFooterData (s : WebState) (d : Nat) (sendFails : Nat → Bool) :
    WebState × List (Nat × WireMsg) :=
  fanOut s (.footerData d) sendFails

/-- `broadcastLoadingState`: fan-out only, nothing stored. -/
def broadcastLoadingState (s : WebState) (d : Nat) (sendFails : Nat → Bool) :
    WebState × List (Nat × WireMsg) :=
  fanOut s (.loadingState d) sendFails

/-- `broadcastPendingItem`: fan-out only, nothing stored. -/
def broadcastPendingItem (s : WebState) (item : Option SrvItem)
    (sendFails : Nat → Bool) : WebState × List (Nat × WireMsg) :=
  fanOut s (.pendingItem item) sendFails

/-- `broadcastSlashCommands`: store the snapshot first (even when not
running), then fan out. -/
def broadcastSlashCommands (s : WebState) (cmds : List Nat)
    (sendFails : Nat → Bool) : WebState × List (Nat × WireMsg) :=
  fanOut { s with currentSlashCommands := cmds } (.slashCommands cmds)
    sendFails

/-- `broadcastMCPServers` after its data transformation: store the snapshot
first, then fan out. -/
def broadcastMCPServers (s : WebState) (data : MCPData)
    (sendFails : Nat → Bool) : WebState × List (Nat × WireMsg) :=
  fanOut { s with currentMCPServers := data } (.mcpServers data) sendFails

/-- `broadcastConsoleMessages`: store the snapshot first, then fan out. -/
def broadcastConsoleMessages (s : WebState) (msgs : List Nat)
    (sendFails : Nat → Bool) : WebState × List (Nat × WireMsg) :=
  fanOut { s with currentConsoleMessages := msgs } (.consoleMessages msgs)
    sendFails

/-- `broadcastCliActionRequired`: store the state when active, clear it when
not, then fan out the payload either way. -/
def broadcastCliActionRequired (s : WebState) (a : CliAction)
    (sendFails : Nat → Bool) : WebState × List (Nat × WireMsg) :=
  fanOut
    { s with currentCliActionState := if a.active then some a else none }
    (.cliActionRequired a) sendFails

/-- `broadcastClear`: truncate the stored history first, then fan out the
clear envelope. -/
def broadcastClear (s : WebState) (sendFails : Nat → Bool) :
    WebState × List (Nat × WireMsg) :=
  fanOut { s with currentHistory := [] } .clearMsg sendFails

/-- The welcome text of the connection envelope. -/
def welcomeText : String := "Connected to Auditaria CLI"

/-- The `wss.on connection` handler (WebInterfaceService.ts lines 656-725):
register the client, then send, in order: the welcome envelope; the stored
history as one history_sync batch only when non-empty; the stored slash
commands only when non-empty; the MCP servers snapshot and the console
messages snapshot unconditionally; the CLI action state only when active.
Returns the new hub state and the bootstrap sequence sent to this client. -/
def handleConnection (s : WebState) (c : Client) :
    WebState × List WireMsg :=
  let msgs :=
    [WireMsg.connectionMsg welcomeText]
    ++ (if s.currentHistory ≠ [] then
          [WireMsg.historySync s.currentHistory] else [])
    ++ (if s.currentSlashCommands ≠ [] then
          [WireMsg.slashCommands s.currentSlashCommands] else [])
    ++ [WireMsg.mcpServers s.currentMCPServers]
    ++ [WireMsg.consoleMessages s.currentConsoleMessages]
    ++ (match s.currentCliActionState with
        | some a => if a.active then [WireMsg.cliActionRequired a] else []
        | none => [])
  ({ s with clients := s.clients ++ [c] }, msgs)

/-! ## Port binding (WebInterfaceService.start, lines 139-171) -/

/-- A bind failure: the EADDRINUSE conflict or any other error code. -/
inductive BindErr
  | addrInUse
  | other (code : String)
deriving DecidableEq, Repr

/-- Outcome of `start`. -/
inductive StartResult
  | ok (port : Nat)
  | errOther (code : String)
  | errFallbackFailed
deriving DecidableEq, Repr

/-- `config.port || 8629`: port 0 and absent both fall back to 8629. -/
def resolvePort : Option Nat → Nat
  | none => 8629
  | some p => if p = 0 then 8629 else p

/-- `config.host || 'localhost'`: absent or empty falls back to localhost. -/
def resolveHost : Option String → String
  | none => "localhost"
  | some h => if h = "" then "localhost" else h

/-- The bind sequence of `start`: try the resolved requested port; on
EADDRINUSE retry exactly once with port 0 (OS-assigned); any other first
error, or a failing fallback, fails the start.  `bind` is the environment's
response to listening on a given port; an `ok` carries the actually bound
port reported by `server.address()`. -/
def start (cfgPort : Option Nat) (bind : Nat → Except BindErr Nat) :
    StartResult :=
  match bind (resolvePort cfgPort) with
  | .ok p => .ok p
  | .error .addrInUse =>
    match bind 0 with
    | .ok q => .ok q
    | .error _ => .errFallbackFailed
  | .error (.other c) => .errOther c

/-! ## Confirmation round-trip (ToolConfirmationContext + incoming dispatch) -/

/-- `addPendingConfirmation`: filter out any existing confirmation with the
same callId, then append the new one. -/
def addPendingConfirmation (l : List PendingConf) (c : PendingConf) :
    List PendingConf :=
  (l.filter (fun x => x.callId ≠ c.callId)) ++ [c]

/-- `removePendingConfirmation`: drop every confirmation with this callId. -/
def removePendingConfirmation (l : List PendingConf) (cid : String) :
    List PendingConf :=
  l.filter (fun x => x.callId ≠ cid)

/-- `handleConfirmationResponse`: find the pending confirmation for the
callId; when present invoke its `onConfirm` once (returned as the list of
invoked callIds) and remove it from the set; otherwise do nothing. -/
def handleConfirmationResponse (l : List PendingConf) (cid : String) :
    List PendingConf × List String :=
  match l.find? (fun x => x.callId = cid) with
  | some c => (l.filter (fun x => x.callId ≠ cid), [c.callId])
  | none => (l, [])

/-- A viewer-originated message; absent optional fields are the empty
string (JS truthiness tests become inequality with ""). -/
structure InboundMsg where
  type : String
  content : String
  callId : String
  outcome : String
deriving DecidableEq, Repr

/-- A side effect dispatched to a registered session-engine handler. -/
inductive HostEffect
  | submitQuery (q : String)
  | abortInvoked
  | confirmInvoked (callId : String) (outcome : String)
deriving DecidableEq, Repr

/-- `handleIncomingMessage` (WebInterfaceService.ts lines 634-648) composed
with the confirmation context state: dispatches by message type to the
registered handlers; confirmation responses additionally need a truthy
callId and outcome, and consume the pending confirmation through
`handleConfirmationResponse`. -/
def handleIncomingMessage (submitReg abortReg confirmReg : Bool)
    (confs : List PendingConf) (m : InboundMsg) :
    List PendingConf × List HostEffect :=
  if m.type = "user_message" ∧ submitReg then
    if m.content.trim ≠ "" then
      (confs, [.submitQuery m.content.trim])
    else (confs, [])
  else if m.type = "interrupt_request" ∧ abortReg then
    (confs, [.abortInvoked])
  else if m.type = "tool_confirmation_response" ∧ confirmReg then
    if m.callId ≠ "" ∧ m.outcome ≠ "" then
      let r := handleConfirmationResponse confs m.callId
      (r.1, r.2.map (fun c => .confirmInvoked c m.outcome))
    else (confs, [])
  else (confs, [])

/-! ## Theorems: broadcast hub (C1, C6, C7, C8) -/

/-- A hub state with one stored history entry, a non-default console log,
empty slash commands, and no action-required state. -/
def c1State : WebState :=
  { isRunning := true, clients := [],
    currentHistory := [⟨1⟩],
    currentSlashCommands := [],
    currentMCPServers := ⟨[], []⟩,
    currentConsoleMessages := [5],
    currentCliActionState := none }

/-- C1: counterexample.  The bootstrap sequence for a freshly attached
viewer contains no footer event, no loading-state event, no slash-commands
event (the command catalog is empty, and the claim requires the event even
then), and no tool-confirmation event — refuting the claim that every
snapshot category is sent as its own event and that the pending
confirmation set is replayed. -/
theorem c1_counterexample :
    ((handleConnection c1State ⟨0, true⟩).2.any (fun m =>
        match m with | .footerData _ => true | _ => false)) = false
  ∧ ((handleConnection c1State ⟨0, true⟩).2.any (fun m =>
        match m with | .loadingState _ => true | _ => false)) = false
  ∧ ((handleConnection c1State ⟨0, true⟩).2.any (fun m =>
        match m with | .slashCommands _ => true | _ => false)) = false
  ∧ ((handleConnection c1State ⟨0, true⟩).2.any (fun m =>
        match m with | .toolConfirmationMsg _ => true | _ => false)) = false
  := by decide

/-- Membership characterization of the bootstrap sequence. -/
theorem bootstrapMem (s : WebState) (c : Client) (m : WireMsg) :
    m ∈ (handleConnection s c).2 ↔
      (m = .connectionMsg welcomeText ∨
       (m = .historySync s.currentHistory ∧ s.currentHistory ≠ []) ∨
       (m = .slashCommands s.currentSlashCommands ∧
         s.currentSlashCommands ≠ []) ∨
       m = .mcpServers s.currentMCPServers ∨
       m = .consoleMessages s.currentConsoleMessages ∨
       (∃ a, m = .cliActionRequired a ∧ s.currentCliActionState = some a ∧
         a.active = true)) := by
  unfold handleConnection
  by_cases h1 : s.currentHistory = [] <;>
    by_cases h2 : s.currentSlashCommands = [] <;>
    cases h3 : s.currentCliActionState with
  | none => simp [h1, h2, h3]
  | some a0 =>
    by_cases h4 : a0.active = true <;>
      simp [h1, h2, h3, h4] <;> aesop

/-- C1 (amended): the bootstrap sequence starts with the welcome envelope,
contains the full stored history as one batched event exactly when the log
is non-empty, the command catalog exactly when non-empty, the server/tool
catalog and the console log unconditionally (even when empty), and the
action-required state exactly when active; it never contains footer,
loading-state, tool-confirmation or pending-item events, and the client is
registered. -/
theorem c1_bootstrap (s : WebState) (c : Client) :
    ((handleConnection s c).1.clients = s.clients ++ [c])
  ∧ ((handleConnection s c).2.head? = some (.connectionMsg welcomeText))
  ∧ (WireMsg.historySync s.currentHistory ∈ (handleConnection s c).2 ↔
      s.currentHistory ≠ [])
  ∧ (WireMsg.slashCommands s.currentSlashCommands ∈ (handleConnection s c).2 ↔
      s.currentSlashCommands ≠ [])
  ∧ WireMsg.mcpServers s.currentMCPServers ∈ (handleConnection s c).2
  ∧ WireMsg.consoleMessages s.currentConsoleMessages ∈ (handleConnection s c).2
  ∧ (∀ a, WireMsg.cliActionRequired a ∈ (handleConnection s c).2 ↔
      (s.currentCliActionState = some a ∧ a.active = true))
  ∧ (∀ d, WireMsg.footerData d ∉ (handleConnection s c).2)
  ∧ (∀ d, WireMsg.loadingState d ∉ (handleConnection s c).2)
  ∧ (∀ pc, WireMsg.toolConfirmationMsg pc ∉ (handleConnection s c).2)
  ∧ (∀ it, WireMsg.pendingItem it ∉ (handleConnection s c).2) := by
  refine ⟨rfl, rfl, ?_, ?_, ?_, ?_, ?_, ?_, ?_, ?_, ?_⟩
  · rw [bootstrapMem]; simp
  · rw [bootstrapMem]; simp
  · rw [bootstrapMem]; simp
  · rw [bootstrapMem]; simp
  · intro a; rw [bootstrapMem]; simp
  · intro d; rw [bootstrapMem]; simp
  · intro d; rw [bootstrapMem]; simp
  · intro pc; rw [bootstrapMem]; simp
  · intro it; rw [bootstrapMem]; simp

/-- A running hub with one open client and an empty stored history log. -/
def c6State : WebState :=
  { isRunning := true, clients := [⟨0, true⟩],
    currentHistory := [],
    currentSlashCommands := [],
    currentMCPServers := ⟨[], []⟩,
    currentConsoleMessages := [],
    currentCliActionState := none }

/-- C6: counterexample.  Publishing a history_item fans the event out to
the attached client, yet leaves the hub's stored history log untouched
(still empty, not `[item]`): the entry is not appended by publish, so a
viewer attaching right afterwards would receive no history_sync containing
it. -/
theorem c6_counterexample :
    (broadcastMessage c6State ⟨7⟩ (fun _ => false)).1.currentHistory = []
  ∧ (broadcastMessage c6State ⟨7⟩ (fun _ => false)).2 =
      [(0, WireMsg.historyItem ⟨7⟩)]
  ∧ (handleConnection (broadcastMessage c6State ⟨7⟩ (fun _ => false)).1
        ⟨1, true⟩).2.any (fun m =>
          match m with | .historySync _ => true | _ => false) = false := by
  decide

/-- C6 (amended): `broadcastMessage` fans a history_item out without
modifying the stored history log, which is instead replaced wholesale via
`setCurrentHistory`; the ephemeral broadcasts for slash commands, MCP
servers, console messages, the action-required flag and clear replace their
snapshot slot before fan-out (even when no client receives the event). -/
theorem c6_publish (s : WebState) (item : SrvItem) (f : Nat → Bool)
    (h : List SrvItem) (cmds : List Nat) (msgs : List Nat) (data : MCPData)
    (a : CliAction) :
    (broadcastMessage s item f).1.currentHistory = s.currentHistory
  ∧ (∀ p ∈ (broadcastMessage s item f).2, p.2 = WireMsg.historyItem item)
  ∧ (setCurrentHistory s h).currentHistory = h
  ∧ (broadcastSlashCommands s cmds f).1.currentSlashCommands = cmds
  ∧ (broadcastConsoleMessages s msgs f).1.currentConsoleMessages = msgs
  ∧ (broadcastMCPServers s data f).1.currentMCPServers = data
  ∧ (broadcastCliActionRequired s a f).1.currentCliActionState =
      (if a.active then some a else none)
  ∧ (broadcastClear s f).1.currentHistory = [] := by
  refine ⟨?_, ?_, rfl, ?_, ?_, ?_, ?_, ?_⟩
  · simp only [broadcastMessage, fanOut]; split <;> simp
  · intro p hp
    simp only [broadcastMessage, fanOut] at hp
    split at hp
    · simp at hp
    · simp only [List.mem_map] at hp
      obtain ⟨x, hx, rfl⟩ := hp
      rfl
  · simp only [broadcastSlashCommands, fanOut]; split <;> simp
  · simp only [broadcastConsoleMessages, fanOut]; split <;> simp
  · simp only [broadcastMCPServers, fanOut]; split <;> simp
  · simp only [broadcastCliActionRequired, fanOut]; split <;> simp
  · simp only [broadcastClear, fanOut]; split <;> simp

/-- C7: within one publish call, every attached connection that is open and
whose send does not fail receives the serialized event; the registry after
the call keeps exactly the open non-failing connections (a failing or
non-open connection is only pruned); and every delivered envelope is the
same event. -/
theorem c7_fault_isolation (s : WebState) (item : SrvItem)
    (f : Nat → Bool) (c : Client) (hrun : s.isRunning = true)
    (hc : c ∈ s.clients) (hopen : c.isOpen = true) (hok : f c.cid = false) :
    ((c.cid, WireMsg.historyItem item) ∈ (broadcastMessage s item f).2)
  ∧ (broadcastMessage s item f).1.clients =
      s.clients.filter (fun x => x.isOpen && !(f x.cid))
  ∧ (∀ p ∈ (broadcastMessage s item f).2, p.2 = WireMsg.historyItem item) := by
  have hne : s.clients ≠ [] := by
    intro h; rw [h] at hc; exact absurd hc (List.not_mem_nil c)
  have hcond : ¬ (s.isRunning = false ∨ s.clients = []) := by
    simp [hrun, hne]
  refine ⟨?_, ?_, ?_⟩
  · simp only [broadcastMessage, fanOut, if_neg hcond]
    exact List.mem_map.mpr
      ⟨c, List.mem_filter.mpr ⟨hc, by simp [hopen, hok]⟩, rfl⟩
  · simp only [broadcastMessage, fanOut, if_neg hcond]
  · intro p hp
    simp only [broadcastMessage, fanOut, if_neg hcond, List.mem_map] at hp
    obtain ⟨x, hx, rfl⟩ := hp
    rfl

/-- C7 witness: two open clients, sending to client 0 fails; client 1
still receives the event and only client 0 is pruned. -/
theorem c7_witness :
    ((1, WireMsg.historyItem ⟨3⟩) ∈
      (broadcastMessage
        { isRunning := true, clients := [⟨0, true⟩, ⟨1, true⟩],
          currentHistory := [], currentSlashCommands := [],
          currentMCPServers := ⟨[], []⟩, currentConsoleMessages := [],
          currentCliActionState := none }
        ⟨3⟩ (fun n => n = 0)).2) := by
  exact (c7_fault_isolation
    { isRunning := true, clients := [⟨0, true⟩, ⟨1, true⟩],
      currentHistory := [], currentSlashCommands := [],
      currentMCPServers := ⟨[], []⟩, currentConsoleMessages := [],
      currentCliActionState := none }
    ⟨3⟩ (fun n => n = 0) ⟨1, true⟩ rfl (by simp) rfl (by simp)).1

/-- C8: start resolves the requested port (0 or absent fall back to the
fixed default 8629) and the host (absent or empty fall back to loopback);
a successful first bind returns the actually bound port; an EADDRINUSE
first bind retries exactly once on port 0 (the OS-assigned ephemeral port),
whose success returns the newly bound port and whose failure fails the
start; any other first bind error fails the start without consulting the
fallback. -/
theorem c8_start (cfgPort : Option Nat) (bind : Nat → Except BindErr Nat) :
    (∀ p, bind (resolvePort cfgPort) = .ok p →
      start cfgPort bind = .ok p)
  ∧ (bind (resolvePort cfgPort) = .error .addrInUse →
      (∀ q, bind 0 = .ok q → start cfgPort bind = .ok q)
    ∧ (∀ e, bind 0 = .error e → start cfgPort bind = .errFallbackFailed))
  ∧ (∀ code, bind (resolvePort cfgPort) = .error (.other code) →
      ∀ bind2 : Nat → Except BindErr Nat,
        bind2 (resolvePort cfgPort) = .error (.other code) →
        start cfgPort bind2 = .errOther code)
  ∧ resolvePort none = 8629
  ∧ resolvePort (some 0) = 8629
  ∧ resolveHost none = "localhost"
  ∧ resolveHost (some "") = "localhost" := by
  refine ⟨?_, ?_, ?_, rfl, rfl, rfl, ?_⟩
  · intro p hp; simp [start, hp]
  · intro hfirst
    refine ⟨?_, ?_⟩
    · intro q hq; simp [start, hfirst, hq]
    · intro e he; simp [start, hfirst, he]
  · intro code _ bind2 h2; simp [start, h2]
  · simp [resolveHost]

/-- C8 witness: requested port busy, ephemeral bind succeeds on 49152. -/
theorem c8_witness :
    start (some 9000)
      (fun p => if p = 9000 then .error .addrInUse else .ok 49152) =
      .ok 49152 := by
  exact ((c8_start (some 9000)
    (fun p => if p = 9000 then .error .addrInUse else .ok 49152)).2.1
    (by simp [resolvePort])).1 49152 (by simp)

/-- C9: at most one confirmation response per callId reaches the
registered session-engine handler.  For a response whose callId is in the
pending set, the dispatch invokes the handler exactly once and removes the
request; a second response for the same callId, processed on the resulting
state, invokes nothing and changes nothing; a response for a callId not in
the set invokes nothing and changes nothing. -/
theorem c9_exactly_once (l : List PendingConf) (m : InboundMsg)
    (hty : m.type = "tool_confirmation_response") (hcid : m.callId ≠ "")
    (hout : m.outcome ≠ "") :
    ((∃ x ∈ l, x.callId = m.callId) →
      (handleIncomingMessage true true true l m).2 =
        [.confirmInvoked m.callId m.outcome]
    ∧ (∀ x ∈ (handleIncomingMessage true true true l m).1,
        x.callId ≠ m.callId))
  ∧ ((∀ x ∈ l, x.callId ≠ m.callId) →
      (handleIncomingMessage true true true l m).1 = l
    ∧ (handleIncomingMessage true true true l m).2 = [])
  ∧ ((handleIncomingMessage true true true
        (handleIncomingMessage true true true l m).1 m).2 = []
    ∧ (handleIncomingMessage true true true
        (handleIncomingMessage true true true l m).1 m).1 =
      (handleIncomingMessage true true true l m).1) := by
  have step : ∀ l2 : List PendingConf,
      handleIncomingMessage true true true l2 m =
        ((handleConfirmationResponse l2 m.callId).1,
         (handleConfirmationResponse l2 m.callId).2.map
           (fun c => .confirmInvoked c m.outcome)) := by
    intro l2
    simp [handleIncomingMessage, hty, hcid, hout]
  have hnomem : ∀ l2 : List PendingConf, (∀ x ∈ l2, x.callId ≠ m.callId) →
      handleConfirmationResponse l2 m.callId = (l2, []) := by
    intro l2 h2
    have : l2.find? (fun x => x.callId = m.callId) = none := by
      rw [List.find?_eq_none]
      intro x hx
      simp [h2 x hx]
    simp [handleConfirmationResponse, this]
  refine ⟨?_, ?_, ?_⟩
  · rintro ⟨x, hx, hxid⟩
    obtain ⟨y, hy⟩ : ∃ y, l.find? (fun z => z.callId = m.callId) = some y := by
      cases hf : l.find? (fun z => z.callId = m.callId) with
      | some y => exact ⟨y, rfl⟩
      | none =>
        have := List.find?_eq_none.mp hf x hx
        simp [hxid] at this
    have hyid : y.callId = m.callId := by
      have := List.find?_some hy
      simpa using this
    constructor
    · rw [step]; simp [handleConfirmationResponse, hy, hyid]
    · rw [step]
      intro z hz
      simp only [handleConfirmationResponse, hy] at hz
      have := List.mem_filter.mp hz
      simpa using this.2
  · intro hnone
    rw [step, hnomem l hnone]
    exact ⟨rfl, rfl⟩
  · have hafter : ∀ x ∈ (handleIncomingMessage true true true l m).1,
        x.callId ≠ m.callId := by
      rw [step]
      intro z hz
      simp only [handleConfirmationResponse] at hz
      cases hf : l.find? (fun x => x.callId = m.callId) with
      | none => rw [hf] at hz; simp at hz
                exact fun he => by
                  have := List.find?_eq_none.mp hf z hz
                  simp [he] at this
      | some y => rw [hf] at hz
                  have := List.mem_filter.mp hz
                  simpa using this.2
    rw [step ((handleIncomingMessage true true true l m).1),
        hnomem _ hafter]
    exact ⟨rfl, rfl⟩

/-- C9 witness: one pending confirmation for call a; two identical
responses yield exactly one handler invocation, and the second is a
no-op. -/
theorem c9_witness :
    ((handleIncomingMessage true true true [⟨"a", "shell", 5⟩]
        ⟨"tool_confirmation_response", "", "a", "proceed"⟩).2 =
      [.confirmInvoked "a" "proceed"])
  ∧ ((handleIncomingMessage true true true
        (handleIncomingMessage true true true [⟨"a", "shell", 5⟩]
          ⟨"tool_confirmation_response", "", "a", "proceed"⟩).1
        ⟨"tool_confirmation_response", "", "a", "proceed"⟩).2 = []) := by
  refine ⟨?_, ?_⟩
  · exact ((c9_exactly_once [⟨"a", "shell", 5⟩]
      ⟨"tool_confirmation_response", "", "a", "proceed"⟩ rfl
      (by decide) (by decide)).1 ⟨⟨"a", "shell", 5⟩, by simp, rfl⟩).1
  · exact ((c9_exactly_once [⟨"a", "shell", 5⟩]
      ⟨"tool_confirmation_response", "", "a", "proceed"⟩ rfl
      (by decide) (by decide)).2.2).1

/-- C10: the pending-confirmation set never holds two entries with one
callId.  Adding first filters the callId then appends, so the result holds
exactly one entry for it (the new one) and callId-distinctness is
preserved; removal deletes every entry with the callId and keeps all
others. -/
theorem c10_no_duplicates (l : List PendingConf) (c : PendingConf)
    (cid : String) :
    ((addPendingConfirmation l c).filter
        (fun x => x.callId = c.callId) = [c])
  ∧ (((l.map PendingConf.callId).Nodup →
      ((addPendingConfirmation l c).map PendingConf.callId).Nodup))
  ∧ (((l.map PendingConf.callId).Nodup →
      ((removePendingConfirmation l cid).map PendingConf.callId).Nodup))
  ∧ (∀ x ∈ removePendingConfirmation l cid, x.callId ≠ cid)
  ∧ (∀ x ∈ l, x.callId ≠ cid → x ∈ removePendingConfirmation l cid) := by
  refine ⟨?_, ?_, ?_, ?_, ?_⟩
  · simp only [addPendingConfirmation, List.filter_append]
    have h1 : (l.filter (fun x => x.callId ≠ c.callId)).filter
        (fun x => x.callId = c.callId) = [] := by
      rw [List.filter_eq_nil_iff]
      intro x hx
      have := (List.mem_filter.mp hx).2
      simpa using this
    rw [h1]
    simp
  · intro hnd
    simp only [addPendingConfirmation, List.map_append]
    rw [List.nodup_append]
    refine ⟨?_, by simp, ?_⟩
    · exact hnd.sublist ((List.filter_sublist l).map PendingConf.callId)
    · intro a ha hb
      simp only [List.mem_map] at ha
      obtain ⟨x, hx, rfl⟩ := ha
      simp only [List.map_cons, List.map_nil, List.mem_singleton] at hb
      have := (List.mem_filter.mp hx).2
      simp [hb] at this
  · intro hnd
    exact hnd.sublist ((List.filter_sublist l).map PendingConf.callId)
  · intro x hx
    have := (List.mem_filter.mp hx).2
    simpa using this
  · intro x hx hne
    exact List.mem_filter.mpr ⟨hx, by simpa using hne⟩

/-- C10 witness: re-requesting call a replaces the stale request, and
removal empties the set. -/
theorem c10_witness :
    ((addPendingConfirmation [⟨"a", "shell", 1⟩] ⟨"a", "shell", 9⟩).filter
        (fun x => x.callId = "a") = [⟨"a", "shell", 9⟩])
  ∧ (∀ x ∈ removePendingConfirmation [⟨"a", "shell", 1⟩] "a",
      x.callId ≠ "a") := by
  refine ⟨?_, ?_⟩
  · exact (c10_no_duplicates [⟨"a", "shell", 1⟩] ⟨"a", "shell", 9⟩ "a").1
  · exact (c10_no_duplicates [⟨"a", "shell", 1⟩] ⟨"a", "shell", 9⟩
      "a").2.2.2.1

/-! ## Theorems: reconciliation engine (C2, C3, C4, C5) -/

/-- Membership view of `mapHas`. -/
theorem mapHas_iff (c : String) (m : CallMap) :
    mapHas c m = true ↔ ∃ p ∈ m, p.1 = c := by
  simp [mapHas, List.any_eq_true]

/-- `mapSet` introduces no key other than the one being set. -/
theorem mapHas_mapSet (c k : String) (v : Tool) (m : CallMap)
    (h : mapHas c (mapSet k v m) = true) : c = k ∨ mapHas c m = true := by
  unfold mapSet at h
  split at h
  · right
    rw [mapHas_iff] at h ⊢
    obtain ⟨p, hp, hpc⟩ := h
    rw [List.mem_map] at hp
    obtain ⟨q, hq, rfl⟩ := hp
    refine ⟨q, hq, ?_⟩
    by_cases hqk : q.1 = k
    · rw [if_pos hqk] at hpc; rw [hqk]; exact hpc
    · rw [if_neg hqk] at hpc; exact hpc
  · rw [mapHas_iff] at h
    obtain ⟨p, hp, hpc⟩ := h
    rcases List.mem_append.mp hp with h2 | h2
    · exact Or.inr (mapHas_iff c m |>.mpr ⟨p, h2, hpc⟩)
    · left
      rw [List.mem_singleton] at h2
      rw [h2] at hpc
      exact hpc.symm

/-- A fold of conditional `mapSet`s over a tool list introduces only keys
that are callIds of that list. -/
theorem mapHas_foldl (cond : Tool → Prop) [DecidablePred cond] (c : String) :
    ∀ (ts : List Tool) (m : CallMap),
      mapHas c (ts.foldl
        (fun acc t => if cond t then mapSet t.callId t acc else acc) m)
        = true →
      mapHas c m = true ∨ ∃ t ∈ ts, t.callId = c := by
  intro ts
  induction ts with
  | nil => intro m h; exact Or.inl h
  | cons t ts ih =>
    intro m h
    simp only [List.foldl_cons] at h
    rcases ih _ h with h2 | h2
    · by_cases hcond : cond t
      · rw [if_pos hcond] at h2
        rcases mapHas_mapSet c t.callId t m h2 with he | he
        · exact Or.inr ⟨t, List.mem_cons_self t ts, he.symm⟩
        · exact Or.inl he
      · rw [if_neg hcond] at h2; exact Or.inl h2
    · obtain ⟨x, hx, hxc⟩ := h2
      exact Or.inr ⟨x, List.mem_cons_of_mem t hx, hxc⟩

/-- C2: once a callId has been recorded as terminal, a pending tool-group
update never (re)introduces it into any pending group (its status stays as
displayed), the callId is dropped from the update's surviving call set, and
an update all of whose calls are terminal-seen is ignored entirely. -/
theorem c2_terminal_idempotent (s : MMState) (item : Item) (now : Nat)
    (c : String) (hc : c ≠ "") (hmem : c ∈ s.completedToolCallIds) :
    ((∀ g ∈ s.pendingToolGroups, mapHas c g.2.tools = false) →
      ∀ g ∈ (updatePendingToolGroup s item now).pendingToolGroups,
        mapHas c g.2.tools = false)
  ∧ (∀ t ∈ item.tools.filter
        (fun t => !(t.callId ≠ "" ∧ t.callId ∈ s.completedToolCallIds)),
      t.callId ≠ c)
  ∧ ((∀ t ∈ item.tools, t.callId ≠ "" ∧ t.callId ∈ s.completedToolCallIds) →
      updatePendingToolGroup s item now = s) := by
  have hdrop : ∀ t ∈ item.tools.filter
      (fun t => !(t.callId ≠ "" ∧ t.callId ∈ s.completedToolCallIds)),
      t.callId ≠ c := by
    intro t ht he
    have h2 := (List.mem_filter.mp ht).2
    rw [he] at h2
    simp [hc, hmem] at h2
  refine ⟨?_, hdrop, ?_⟩
  · intro hgroups g hg
    unfold updatePendingToolGroup at hg
    by_cases hemp :
        (item.tools.filter (fun t =>
          !(t.callId ≠ "" ∧ t.callId ∈ s.completedToolCallIds))).isEmpty
    · rw [if_pos hemp] at hg
      exact hgroups g hg
    · rw [if_neg hemp] at hg
      cases hf : s.pendingToolGroups.find? (fun p =>
          (item.tools.filter (fun t =>
            !(t.callId ≠ "" ∧ t.callId ∈ s.completedToolCallIds))).any
            (fun t => t.callId ≠ "" && mapHas t.callId p.2.tools)) with
      | none =>
        rw [hf] at hg
        simp only [List.mem_append, List.mem_singleton] at hg
        rcases hg with hg | hg
        · exact hgroups g hg
        · rw [hg]
          rcases Bool.eq_false_or_eq_true (mapHas c
            ((item.tools.filter (fun t =>
              !(t.callId ≠ "" ∧ t.callId ∈ s.completedToolCallIds))).foldl
              (fun m t => if t.callId ≠ "" then mapSet t.callId t m else m)
              [])) with hb | hb
          · exfalso
            rcases mapHas_foldl (fun t => t.callId ≠ "") c _ _ hb with
              h1 | ⟨t, ht, htc⟩
            · simp [mapHas] at h1
            · exact hdrop t ht htc
          · exact hb
      | some mg =>
        rw [hf] at hg
        rw [List.mem_map] at hg
        obtain ⟨p, hp, hpe⟩ := hg
        by_cases hpm : p.1 = mg.1
        · rw [if_pos hpm] at hpe
          rw [← hpe]
          rcases Bool.eq_false_or_eq_true (mapHas c
            ((item.tools.filter (fun t =>
              !(t.callId ≠ "" ∧ t.callId ∈ s.completedToolCallIds))).foldl
              (fun m t =>
                if t.callId ≠ "" ∧ ¬ t.callId ∈ s.completedToolCallIds then
                  mapSet t.callId t m
                else m)
              mg.2.tools)) with hb | hb
          · exfalso
            rcases mapHas_foldl
              (fun t => t.callId ≠ "" ∧ ¬ t.callId ∈ s.completedToolCallIds)
              c _ _ hb with h1 | ⟨t, ht, htc⟩
            · have hmg := List.mem_of_find?_eq_some hf
              rw [hgroups mg hmg] at h1
              exact Bool.false_ne_true h1
            · exact hdrop t ht htc
          · exact hb
        · rw [if_neg hpm] at hpe
          rw [← hpe]
          exact hgroups p hp
  · intro hall
    have hnil : item.tools.filter (fun t =>
        !(t.callId ≠ "" ∧ t.callId ∈ s.completedToolCallIds)) = [] := by
      rw [List.filter_eq_nil_iff]
      intro t ht
      simp [hall t ht]
    unfold updatePendingToolGroup
    rw [hnil]
    rfl

/-- C2 witness: with callId c1 terminal-seen, a pending update consisting
only of c1 is a no-op on the engine state. -/
theorem c2_witness :
    updatePendingToolGroup
      { container := [], messageCount := 0, lastAIMessage := none,
        pendingToolGroups := [], completedToolCallIds := ["c1"],
        nextId := 0 }
      { type := "tool_group", text := "",
        tools := [{ callId := "c1", name := "shell", status := .executing }],
        id := 0 }
      700 =
    { container := [], messageCount := 0, lastAIMessage := none,
      pendingToolGroups := [], completedToolCallIds := ["c1"],
      nextId := 0 } := by
  exact (c2_terminal_idempotent
    { container := [], messageCount := 0, lastAIMessage := none,
      pendingToolGroups := [], completedToolCallIds := ["c1"],
      nextId := 0 }
    { type := "tool_group", text := "",
      tools := [{ callId := "c1", name := "shell", status := .executing }],
      id := 0 }
    700 "c1" (by decide) (by simp)).2.2 (by simp)

/-- `loadHistoryStep` never touches the pending-group index. -/
theorem loadHistoryStep_groups (now : Nat) (st : MMState) (it : Item) :
    (loadHistoryStep now st it).pendingToolGroups = st.pendingToolGroups := by
  unfold loadHistoryStep
  split
  · cases hla : st.lastAIMessage with
    | none => simp [mergeWithLastAIMessage, hla, addNewMessage]
    | some la => simp [mergeWithLastAIMessage, hla, addNewMessage]
  · simp [addNewMessage]

/-- `loadHistoryStep` never touches the terminal-seen set. -/
theorem loadHistoryStep_completed (now : Nat) (st : MMState) (it : Item) :
    (loadHistoryStep now st it).completedToolCallIds =
      st.completedToolCallIds := by
  unfold loadHistoryStep
  split
  · cases hla : st.lastAIMessage with
    | none => simp [mergeWithLastAIMessage, hla, addNewMessage]
    | some la => simp [mergeWithLastAIMessage, hla, addNewMessage]
  · simp [addNewMessage]

/-- `loadHistoryStep` preserves absence of pending projection elements. -/
theorem loadHistoryStep_no_pending (now : Nat) (st : MMState) (it : Item)
    (h : ∀ e ∈ st.container, e.pendingText = false ∧ e.pendingTools = false) :
    ∀ e ∈ (loadHistoryStep now st it).container,
      e.pendingText = false ∧ e.pendingTools = false := by
  unfold loadHistoryStep
  split
  · cases hla : st.lastAIMessage with
    | none =>
      simp only [mergeWithLastAIMessage, hla, addNewMessage]
      intro e he
      rcases List.mem_append.mp he with h2 | h2
      · exact h e h2
      · rw [List.mem_singleton] at h2
        rw [h2]
        exact ⟨rfl, rfl⟩
    | some la =>
      simp only [mergeWithLastAIMessage, hla, if_true]
      intro e he
      rw [List.mem_map] at he
      obtain ⟨x, hx, rfl⟩ := he
      by_cases hid : x.elemId = la.elemId
      · rw [if_pos hid]
        exact h x hx
      · rw [if_neg hid]
        exact h x hx
  · simp only [addNewMessage]
    intro e he
    rcases List.mem_append.mp he with h2 | h2
    · exact h e h2
    · rw [List.mem_singleton] at h2
      rw [h2]
      exact ⟨rfl, rfl⟩

/-- The load loop keeps the pending-group index and terminal-seen set of
its start state and never creates pending elements. -/
theorem loadFold_invariant (now : Nat) : ∀ (items : List Item) (st : MMState),
    ((items.foldl (loadHistoryStep now) st).pendingToolGroups =
      st.pendingToolGroups)
  ∧ ((items.foldl (loadHistoryStep now) st).completedToolCallIds =
      st.completedToolCallIds)
  ∧ ((∀ e ∈ st.container, e.pendingText = false ∧ e.pendingTools = false) →
      ∀ e ∈ (items.foldl (loadHistoryStep now) st).container,
        e.pendingText = false ∧ e.pendingTools = false) := by
  intro items
  induction items with
  | nil => intro st; exact ⟨rfl, rfl, fun h => h⟩
  | cons it rest ih =>
    intro st
    simp only [List.foldl_cons]
    refine ⟨?_, ?_, ?_⟩
    · rw [(ih (loadHistoryStep now st it)).1, loadHistoryStep_groups]
    · rw [(ih (loadHistoryStep now st it)).2.1, loadHistoryStep_completed]
    · intro h
      exact (ih (loadHistoryStep now st it)).2.2
        (loadHistoryStep_no_pending now st it h)

/-- C5: counterexample.  Loading a snapshot of two agent_text entries whose
own timestamps are 15 seconds apart (ids 0 and 15000, beyond the 10-second
merge window) renders them as ONE combined entry, because merge
eligibility during the load loop is computed from the wall clock at
processing time (here 20000 for both), not from the entries' own
timestamps — refuting the claim that such entries are not merged. -/
theorem c5_counterexample :
    (loadHistoryItems mmInit
      [{ type := "gemini", text := "A", tools := [], id := 0 },
       { type := "gemini", text := "B", tools := [], id := 15000 }]
      20000).container.map (fun e => e.content) = ["A\n\nB"] := by
  rfl

/-- C5 (amended): loadHistoryItems rebuilds the rendered list from the
given entries alone (two states sharing a fresh-id counter load
identically, whatever their previous rendered lists), resets the
pending-group index and terminal-seen set, produces no pending
projections, and derives merge eligibility from the wall clock at load
time rather than the entries' own timestamps: any two agent_text entries
loaded in one call render as one combined entry, whatever their ids. -/
theorem c5_load (s s2 : MMState) (items : List Item) (i1 i2 : Item)
    (now : Nat) (h1 : i1.type = "gemini") (h2 : i2.type = "gemini")
    (hnx : s.nextId = s2.nextId) :
    (loadHistoryItems s items now = loadHistoryItems s2 items now)
  ∧ (loadHistoryItems s items now).pendingToolGroups = []
  ∧ (loadHistoryItems s items now).completedToolCallIds = []
  ∧ (∀ e ∈ (loadHistoryItems s items now).container,
      e.pendingText = false ∧ e.pendingTools = false)
  ∧ (loadHistoryItems s [i1, i2] now).container.map (fun e => e.content) =
      [i1.text ++ "\n\n" ++ i2.text] := by
  refine ⟨?_, ?_, ?_, ?_, ?_⟩
  · simp only [loadHistoryItems, hnx]
  · simpa using (loadFold_invariant now items _).1
  · simpa using (loadFold_invariant now items _).2.1
  · intro e he
    exact (loadFold_invariant now items _).2.2 (by simp) e he
  · simp only [loadHistoryItems, List.foldl_cons, List.foldl_nil]
    rw [show loadHistoryStep now
        { container := [], messageCount := 0, lastAIMessage := none,
          pendingToolGroups := [], completedToolCallIds := [],
          nextId := s.nextId } i1 =
        addNewMessage
        { container := [], messageCount := 0, lastAIMessage := none,
          pendingToolGroups := [], completedToolCallIds := [],
          nextId := s.nextId } i1 now from by
      simp [loadHistoryStep, canMergeWithLast]]
    simp [loadHistoryStep, canMergeWithLast, isAIMessage, h1, h2,
      addNewMessage, mergeWithLastAIMessage, mergeTimeframe,
      getMessageContent]

/-- C5 witness: the merged-load consequence at two concrete entries with
ids 0 and 15000 loaded at wall-clock 20000. -/
theorem c5_witness :
    (loadHistoryItems mmInit
      [{ type := "gemini", text := "A", tools := [], id := 0 },
       { type := "gemini", text := "B", tools := [], id := 15000 }]
      20000).container.map (fun e => e.content) =
      ["A" ++ "\n\n" ++ "B"] := by
  exact (c5_load mmInit mmInit
    [{ type := "gemini", text := "A", tools := [], id := 0 },
     { type := "gemini", text := "B", tools := [], id := 15000 }]
    { type := "gemini", text := "A", tools := [], id := 0 }
    { type := "gemini", text := "B", tools := [], id := 15000 }
    20000 rfl rfl rfl).2.2.2.2

/-- C4: two agent_text entries finalized d ≤ 10000 ms apart render as one
combined entry (texts joined by a blank line) with the message count of a
single entry, while d > 10000 ms apart they render as two separate
entries; and when a pending text projection exists at finalize time, no
pending-text element remains afterwards in either timing. -/
theorem c4_merge_window (a b p : Item) (t d : Nat)
    (ha : a.type = "gemini") (hb : b.type = "gemini")
    (hp : p.type = "gemini") :
    (d ≤ mergeTimeframe →
      (addHistoryItem (addHistoryItem mmInit a t) b (t + d)).container.map
          (fun e => e.content) = [a.text ++ "\n\n" ++ b.text]
      ∧ (addHistoryItem (addHistoryItem mmInit a t) b (t + d)).messageCount
          = 1)
  ∧ (mergeTimeframe < d →
      (addHistoryItem (addHistoryItem mmInit a t) b (t + d)).container.map
          (fun e => e.content) = [a.text, b.text]
      ∧ (addHistoryItem (addHistoryItem mmInit a t) b (t + d)).messageCount
          = 2)
  ∧ (∀ e ∈ (addHistoryItem
        (updatePendingItem (addHistoryItem mmInit a t) (some p) (t + 1))
        b (t + d)).container, e.pendingText = false) := by
  refine ⟨?_, ?_, ?_⟩
  · intro hd
    simp [addHistoryItem, addHistoryItemTail, addNewMessage,
      canMergeWithLast, mergeWithLastAIMessage, findPendingText, mmInit,
      isAIMessage, ha, hb, getMessageContent, mergeTimeframe, List.find?]
    rw [if_pos (show d ≤ 10000 from hd)]
    exact ⟨by simp, rfl⟩
  · intro hd
    have hd2 : ¬ (d ≤ 10000) := Nat.not_le.mpr hd
    simp [addHistoryItem, addHistoryItemTail, addNewMessage,
      canMergeWithLast, mergeWithLastAIMessage, findPendingText, mmInit,
      isAIMessage, ha, hb, getMessageContent, mergeTimeframe, List.find?]
    rw [if_neg hd2]
    exact ⟨by simp, rfl⟩
  · by_cases hd : d ≤ 10000
    · simp [addHistoryItem, addHistoryItemTail, addNewMessage,
        updatePendingItem, updatePendingTextMessage, convertPendingToFinal,
        canMergeWithLast, mergeWithLastAIMessage, findPendingText, mmInit,
        isAIMessage, ha, hb, hp, getMessageContent, mergeTimeframe,
        List.find?]
      rw [if_pos (show d ≤ 10000 from hd)]
      simp
    · simp [addHistoryItem, addHistoryItemTail, addNewMessage,
        updatePendingItem, updatePendingTextMessage, convertPendingToFinal,
        canMergeWithLast, mergeWithLastAIMessage, findPendingText, mmInit,
        isAIMessage, ha, hb, hp, getMessageContent, mergeTimeframe,
        List.find?]
      rw [if_neg hd]
      simp

/-- C4 witness: entries finalized 3 seconds apart merge into one combined
entry; finalized 15 seconds apart they stay two entries. -/
theorem c4_witness :
    ((addHistoryItem
        (addHistoryItem mmInit { type := "gemini", text := "A", tools := [], id := 0 } 1000)
        { type := "gemini", text := "B", tools := [], id := 0 }
        (1000 + 3000)).container.map (fun e => e.content) =
      ["A" ++ "\n\n" ++ "B"])
  ∧ ((addHistoryItem
        (addHistoryItem mmInit { type := "gemini", text := "A", tools := [], id := 0 } 1000)
        { type := "gemini", text := "B", tools := [], id := 0 }
        (1000 + 15000)).container.map (fun e => e.content) = ["A", "B"]) := by
  refine ⟨?_, ?_⟩
  · exact ((c4_merge_window
      { type := "gemini", text := "A", tools := [], id := 0 }
      { type := "gemini", text := "B", tools := [], id := 0 }
      { type := "gemini", text := "P", tools := [], id := 0 }
      1000 3000 rfl rfl rfl).1 (by decide)).1
  · exact ((c4_merge_window
      { type := "gemini", text := "A", tools := [], id := 0 }
      { type := "gemini", text := "B", tools := [], id := 0 }
      { type := "gemini", text := "P", tools := [], id := 0 }
      1000 15000 rfl rfl rfl).2.1 (by decide)).1

/-- The running maximum of the best-match scan never decreases. -/
theorem findBest_ge (ts : List Tool) :
    ∀ (l : List (Nat × GroupData)) (bm : Option (Nat × GroupData))
      (maxM : Nat), maxM ≤ (findBest ts l (bm, maxM)).2 := by
  intro l
  induction l with
  | nil => intro bm maxM; exact Nat.le_refl maxM
  | cons q rest ih =>
    intro bm maxM
    simp only [findBest]
    by_cases h : maxM < matchCount ts q.2
    · rw [if_pos h]
      exact Nat.le_trans (Nat.le_of_lt h) (ih _ _)
    · rw [if_neg h]
      exact ih _ _

/-- The final maximum of the scan bounds every group's match count. -/
theorem findBest_ub (ts : List Tool) :
    ∀ (l : List (Nat × GroupData)) (bm : Option (Nat × GroupData))
      (maxM : Nat) (q : Nat × GroupData), q ∈ l →
      matchCount ts q.2 ≤ (findBest ts l (bm, maxM)).2 := by
  intro l
  induction l with
  | nil => intro bm maxM q hq; exact absurd hq (List.not_mem_nil q)
  | cons r rest ih =>
    intro bm maxM q hq
    simp only [findBest]
    rcases List.mem_cons.mp hq with h | h
    · by_cases hlt : maxM < matchCount ts r.2
      · rw [if_pos hlt, h]
        exact findBest_ge ts rest _ _
      · rw [if_neg hlt, h]
        exact Nat.le_trans (Nat.le_of_not_lt hlt) (findBest_ge ts rest _ _)
    · by_cases hlt : maxM < matchCount ts r.2
      · rw [if_pos hlt]; exact ih _ _ q h
      · rw [if_neg hlt]; exact ih _ _ q h

/-- Once the scan tracks some best group, it keeps tracking one. -/
theorem findBest_isSome (ts : List Tool) :
    ∀ (l : List (Nat × GroupData)) (p : Nat × GroupData) (m : Nat),
      ((findBest ts l (some p, m)).1).isSome = true := by
  intro l
  induction l with
  | nil => intro p m; rfl
  | cons r rest ih =>
    intro p m
    simp only [findBest]
    by_cases hlt : m < matchCount ts r.2
    · rw [if_pos hlt]; exact ih _ _
    · rw [if_neg hlt]; exact ih _ _

/-- A scan ending with no best group bounds all match counts by the
initial maximum. -/
theorem findBest_none (ts : List Tool) :
    ∀ (l : List (Nat × GroupData)) (m : Nat),
      (findBest ts l (none, m)).1 = none →
      ∀ q ∈ l, matchCount ts q.2 ≤ m := by
  intro l
  induction l with
  | nil => intro m _ q hq; exact absurd hq (List.not_mem_nil q)
  | cons r rest ih =>
    intro m hnone q hq
    simp only [findBest] at hnone
    by_cases hlt : m < matchCount ts r.2
    · rw [if_pos hlt] at hnone
      have := findBest_isSome ts rest r (matchCount ts r.2)
      rw [hnone] at this
      exact absurd this (by simp)
    · rw [if_neg hlt] at hnone
      rcases List.mem_cons.mp hq with h | h
      · rw [h]; exact Nat.le_of_not_lt hlt
      · exact ih m hnone q h

/-- The scan either returns its initial accumulator or a group of the list
whose match count is the final maximum and beats the initial maximum. -/
theorem findBest_spec (ts : List Tool) :
    ∀ (l : List (Nat × GroupData)) (bm : Option (Nat × GroupData))
      (maxM : Nat),
      ((findBest ts l (bm, maxM)).1 = bm ∧ (findBest ts l (bm, maxM)).2 = maxM)
    ∨ (∃ p, p ∈ l ∧ (findBest ts l (bm, maxM)).1 = some p
        ∧ (findBest ts l (bm, maxM)).2 = matchCount ts p.2
        ∧ maxM < matchCount ts p.2) := by
  intro l
  induction l with
  | nil => intro bm maxM; exact Or.inl ⟨rfl, rfl⟩
  | cons r rest ih =>
    intro bm maxM
    simp only [findBest]
    by_cases hlt : maxM < matchCount ts r.2
    · rw [if_pos hlt]
      rcases ih (some r) (matchCount ts r.2) with ⟨h1, h2⟩ | ⟨p, hp, h1, h2, h3⟩
      · exact Or.inr ⟨r, List.mem_cons_self r rest, h1, h2, hlt⟩
      · exact Or.inr ⟨p, List.mem_cons_of_mem r hp, h1, h2,
          Nat.lt_trans hlt h3⟩
    · rw [if_neg hlt]
      rcases ih bm maxM with ⟨h1, h2⟩ | ⟨p, hp, h1, h2, h3⟩
      · exact Or.inl ⟨h1, h2⟩
      · exact Or.inr ⟨p, List.mem_cons_of_mem r hp, h1, h2, h3⟩

/-- A successful group match is a member of the index, shares at least one
callId, and has the greatest number of shared callIds. -/
theorem findMatching_some (s : MMState) (tools : List Tool) (mid : Nat)
    (g : GroupData)
    (h : findMatchingPendingToolGroup s tools = some (mid, g)) :
    (mid, g) ∈ s.pendingToolGroups
  ∧ 0 < matchCount tools g
  ∧ ∀ p ∈ s.pendingToolGroups,
      matchCount tools p.2 ≤ matchCount tools g := by
  unfold findMatchingPendingToolGroup at h
  by_cases hemp : tools.isEmpty
  · rw [if_pos hemp] at h; exact absurd h (by simp)
  · rw [if_neg hemp] at h
    rcases findBest_spec tools s.pendingToolGroups none 0 with
      ⟨h1, _⟩ | ⟨p, hp, h1, h2, h3⟩
    · rw [h1] at h; exact absurd h (by simp)
    · rw [h1] at h
      have hpe : p = (mid, g) := Option.some.inj h
      rw [hpe] at hp h2 h3
      refine ⟨hp, h3, ?_⟩
      intro q hq
      have := findBest_ub tools s.pendingToolGroups none 0 q hq
      rw [h2] at this
      exact this

/-- A failed group match means no pending group shares any (truthy) callId
with the incoming tools. -/
theorem findMatching_none (s : MMState) (tools : List Tool)
    (h : findMatchingPendingToolGroup s tools = none) :
    ∀ q ∈ s.pendingToolGroups, ∀ t ∈ tools,
      ¬ (t.callId ≠ "" ∧ mapHas t.callId q.2.tools = true) := by
  unfold findMatchingPendingToolGroup at h
  by_cases hemp : tools.isEmpty
  · intro q hq t ht
    rw [List.isEmpty_iff] at hemp
    rw [hemp] at ht
    exact absurd ht (List.not_mem_nil t)
  · rw [if_neg hemp] at h
    intro q hq t ht
    have hle := findBest_none tools s.pendingToolGroups 0 h q hq
    have : matchCount tools q.2 = 0 := Nat.le_zero.mp hle
    unfold matchCount at this
    rw [List.countP_eq_zero] at this
    have := this t ht
    intro hcon
    apply this
    simp [hcon.1, hcon.2]

/-- Ids of elements after finalizing a group in place form a subsequence
of the previous ids (elements are updated in place or removed, never
reordered or appended). -/
theorem uptgf_ids_sublist (s1 : MMState) (mid : Nat) (g : GroupData)
    (item : Item) (now : Nat) :
    ((updatePendingToolGroupToFinal s1 mid g item now).container.map
      (fun e => e.elemId)).Sublist
      (s1.container.map (fun e => e.elemId)) := by
  simp only [updatePendingToolGroupToFinal]
  have key : ∀ (c : List RenderedMsg) (f : RenderedMsg → RenderedMsg)
      (q : RenderedMsg → Bool), (∀ e, (f e).elemId = e.elemId) →
      (((c.map f).filter q).map (fun e => e.elemId)).Sublist
        (c.map (fun e => e.elemId)) := by
    intro c f q hpres
    have h1 := (@List.filter_sublist RenderedMsg q (c.map f)).map
      (fun e => e.elemId)
    rw [List.map_map] at h1
    have h2 : c.map ((fun e => e.elemId) ∘ f) = c.map (fun e => e.elemId) :=
      List.map_congr_left (fun a _ => hpres a)
    rw [h2] at h1
    exact h1
  exact key _ _ _ (fun e => by
    by_cases h : e.elemId = g.elemId
    · rw [if_pos h]
    · rw [if_neg h])

/-- After finalizing, every element carrying the matched group's id shows
the finalized tools and is no longer pending. -/
theorem uptgf_elem_final (s1 : MMState) (mid : Nat) (g : GroupData)
    (item : Item) (now : Nat) :
    ∀ e ∈ (updatePendingToolGroupToFinal s1 mid g item now).container,
      e.elemId = g.elemId → e.pendingTools = false ∧ e.tools = item.tools := by
  simp only [updatePendingToolGroupToFinal]
  intro e he heid
  have he2 := List.mem_of_mem_filter he
  rw [List.mem_map] at he2
  obtain ⟨x, hx, rfl⟩ := he2
  by_cases h : x.elemId = g.elemId
  · rw [if_pos h]
    exact ⟨rfl, rfl⟩
  · rw [if_neg h] at heid
    exact absurd heid h

/-- Surviving pending groups after a finalize: none is the matched handle,
all were already in the index, and none shares any truthy callId with the
finalized tool set. -/
theorem uptgf_groups_mem (s1 : MMState) (mid : Nat) (g : GroupData)
    (item : Item) (now : Nat) :
    ∀ p ∈ (updatePendingToolGroupToFinal s1 mid g item now).pendingToolGroups,
      p.1 ≠ mid ∧ p ∈ s1.pendingToolGroups ∧
      (∀ t ∈ item.tools, t.callId ≠ "" →
        mapHas t.callId p.2.tools = false) := by
  simp only [updatePendingToolGroupToFinal]
  intro p hp
  have hp1 := List.mem_filter.mp hp
  have hp2 := List.mem_filter.mp hp1.1
  refine ⟨by simpa using hp2.2, hp2.1, ?_⟩
  intro t ht hcid
  have hov : ((item.tools.map Tool.callId).any
      (fun c => c ≠ "" && mapHas c p.2.tools)) = false := by
    simpa using hp1.2
  have hfa := List.any_eq_false.mp hov t.callId
    (List.mem_map.mpr ⟨t, ht, rfl⟩)
  simp only [Bool.and_eq_true, decide_eq_true_eq, not_and] at hfa
  cases hmh : mapHas t.callId p.2.tools with
  | false => rfl
  | true => exact absurd hmh (by simpa [hcid] using hfa)

/-- The matched group's element survives the finalize in place, provided
group handles identify elements uniquely. -/
theorem uptgf_g_survives (s1 : MMState) (mid : Nat) (g : GroupData)
    (item : Item) (now : Nat)
    (hmem : (mid, g) ∈ s1.pendingToolGroups)
    (hwf : ∀ p ∈ s1.pendingToolGroups, ∀ q ∈ s1.pendingToolGroups,
      p.2.elemId = q.2.elemId → p.1 = q.1)
    (hin : g.elemId ∈ s1.container.map (fun e => e.elemId)) :
    g.elemId ∈
      (updatePendingToolGroupToFinal s1 mid g item now).container.map
        (fun e => e.elemId) := by
  simp only [updatePendingToolGroupToFinal]
  rw [List.mem_map] at hin
  obtain ⟨x, hx, hxid⟩ := hin
  have hfxid : (if x.elemId = g.elemId then
      { x with pendingTools := false, tools := item.tools, tstamp := now }
    else x).elemId = g.elemId := by
    by_cases h : x.elemId = g.elemId
    · rw [if_pos h]; exact h
    · rw [if_neg h]; exact hxid
  rw [List.mem_map]
  refine ⟨(if x.elemId = g.elemId then
      { x with pendingTools := false, tools := item.tools, tstamp := now }
    else x), ?_, hfxid⟩
  refine List.mem_filter.mpr ⟨List.mem_map.mpr ⟨x, hx, rfl⟩, ?_⟩
  have hdel : (((s1.pendingToolGroups.filter (fun p => p.1 ≠ mid)).filter
      (fun p => (item.tools.map Tool.callId).any
        (fun c => c ≠ "" && mapHas c p.2.tools))).any
      (fun p => p.2.elemId = (if x.elemId = g.elemId then
        { x with pendingTools := false, tools := item.tools, tstamp := now }
      else x).elemId)) = false := by
    rw [List.any_eq_false]
    intro p hp
    have hp1 := List.mem_filter.mp hp
    have hp2 := List.mem_filter.mp hp1.1
    intro hcontra
    rw [hfxid] at hcontra
    have heid : p.2.elemId = g.elemId := by simpa using hcontra
    have := hwf p hp2.1 (mid, g) hmem heid
    have hne : p.1 ≠ mid := by simpa using hp2.2
    exact hne this
  rw [hdel]
  rfl

/-- For tool_group history items, `addHistoryItem` reduces to: record
terminal callIds, then either finalize the best matching pending group in
place or append a regular new message. -/
theorem addHistoryItem_tool_case (s : MMState) (item : Item) (now : Nat)
    (hty : item.type = "tool_group") :
    addHistoryItem s item now =
      match findMatchingPendingToolGroup s item.tools with
      | some mg =>
        updatePendingToolGroupToFinal
          { s with completedToolCallIds := s.completedToolCallIds ++
              ((item.tools.filter (fun t => t.callId ≠ "" ∧
                t.status.isTerminal)).map Tool.callId) }
          mg.1 mg.2 item now
      | none =>
        addNewMessage
          { s with completedToolCallIds := s.completedToolCallIds ++
              ((item.tools.filter (fun t => t.callId ≠ "" ∧
                t.status.isTerminal)).map Tool.callId) }
          item now := by
  have h1 : ¬ (item.type = "gemini" ∨ item.type = "gemini_content") := by
    rw [hty]; simp
  have hkey : ∀ cs : List String,
      findMatchingPendingToolGroup { s with completedToolCallIds := cs }
        item.tools = findMatchingPendingToolGroup s item.tools :=
    fun cs => rfl
  simp only [addHistoryItem]
  rw [if_neg h1, if_pos hty, hkey]
  cases hfm : findMatchingPendingToolGroup s item.tools with
  | some mg => rfl
  | none =>
    simp [addHistoryItemTail, isAIMessage, hty]

/-- C3: finalizing a tool_group selects the pending group with the most
shared callIds (a member of the index sharing at least one), replaces its
element in place (ids stay a subsequence of the old rendered list, the
matched element survives when handles are unique, carries the finalized
tools and is no longer pending) and deletes its handle from the index;
with no shared callId the entry is appended as a new message and the index
is untouched; afterwards no pending group shares any callId with the
finalized set, and every terminal callId is recorded as terminal-seen. -/
theorem c3_finalize_tool_group (s : MMState) (item : Item) (now : Nat)
    (hty : item.type = "tool_group")
    (hwf : ∀ p ∈ s.pendingToolGroups, ∀ q ∈ s.pendingToolGroups,
      p.2.elemId = q.2.elemId → p.1 = q.1) :
    (∀ mid g, findMatchingPendingToolGroup s item.tools = some (mid, g) →
      ((mid, g) ∈ s.pendingToolGroups
       ∧ 0 < matchCount item.tools g
       ∧ (∀ p ∈ s.pendingToolGroups,
           matchCount item.tools p.2 ≤ matchCount item.tools g)
       ∧ ((addHistoryItem s item now).container.map
            (fun e => e.elemId)).Sublist
           (s.container.map (fun e => e.elemId))
       ∧ (g.elemId ∈ s.container.map (fun e => e.elemId) →
           g.elemId ∈ (addHistoryItem s item now).container.map
             (fun e => e.elemId))
       ∧ (∀ e ∈ (addHistoryItem s item now).container,
           e.elemId = g.elemId →
           e.pendingTools = false ∧ e.tools = item.tools)
       ∧ (∀ p ∈ (addHistoryItem s item now).pendingToolGroups, p.1 ≠ mid)))
  ∧ (findMatchingPendingToolGroup s item.tools = none →
      (addHistoryItem s item now).container =
        s.container ++
          [{ elemId := s.nextId, type := item.type, content := item.text,
             tools := item.tools, pendingText := false,
             pendingTools := false, tstamp := now }]
      ∧ (addHistoryItem s item now).pendingToolGroups =
          s.pendingToolGroups)
  ∧ (∀ p ∈ (addHistoryItem s item now).pendingToolGroups,
      ∀ t ∈ item.tools, t.callId ≠ "" →
        mapHas t.callId p.2.tools = false)
  ∧ (∀ t ∈ item.tools, t.callId ≠ "" → t.status.isTerminal = true →
      t.callId ∈ (addHistoryItem s item now).completedToolCallIds) := by
  have hred := addHistoryItem_tool_case s item now hty
  refine ⟨?_, ?_, ?_, ?_⟩
  · intro mid g hfm
    rw [hfm] at hred
    obtain ⟨hmem, hpos, hmax⟩ := findMatching_some s item.tools mid g hfm
    refine ⟨hmem, hpos, hmax, ?_, ?_, ?_, ?_⟩
    · rw [hred]
      exact uptgf_ids_sublist _ mid g item now
    · intro hin
      rw [hred]
      exact uptgf_g_survives _ mid g item now hmem hwf hin
    · intro e he heid
      rw [hred] at he
      exact uptgf_elem_final _ mid g item now e he heid
    · intro p hp
      rw [hred] at hp
      exact (uptgf_groups_mem _ mid g item now p hp).1
  · intro hfm
    rw [hfm] at hred
    rw [hred]
    exact ⟨rfl, rfl⟩
  · intro p hp t ht hcid
    cases hfm : findMatchingPendingToolGroup s item.tools with
    | some mg =>
      rw [hfm] at hred
      rw [hred] at hp
      exact (uptgf_groups_mem _ mg.1 mg.2 item now p hp).2.2 t ht hcid
    | none =>
      rw [hfm] at hred
      rw [hred] at hp
      have hp2 : p ∈ s.pendingToolGroups := hp
      have hno := findMatching_none s item.tools hfm p hp2 t ht
      cases hmh : mapHas t.callId p.2.tools with
      | false => rfl
      | true => exact absurd ⟨hcid, hmh⟩ hno
  · intro t ht hcid hterm
    cases hfm : findMatchingPendingToolGroup s item.tools with
    | some mg =>
      rw [hfm] at hred
      rw [hred]
      show t.callId ∈ s.completedToolCallIds ++
        ((item.tools.filter (fun t => t.callId ≠ "" ∧
          t.status.isTerminal)).map Tool.callId)
      exact List.mem_append_right _ (List.mem_map.mpr
        ⟨t, List.mem_filter.mpr ⟨ht, by simp [hcid, hterm]⟩, rfl⟩)
    | none =>
      rw [hfm] at hred
      rw [hred]
      show t.callId ∈ s.completedToolCallIds ++
        ((item.tools.filter (fun t => t.callId ≠ "" ∧
          t.status.isTerminal)).map Tool.callId)
      exact List.mem_append_right _ (List.mem_map.mpr
        ⟨t, List.mem_filter.mpr ⟨ht, by simp [hcid, hterm]⟩, rfl⟩)

/-- The pending-group value used in the C3 witness scenario. -/
def c3G : GroupData :=
  { elemId := 0,
    tools := [("c1", { callId := "c1", name := "shell",
                       status := .executing }),
              ("c2", { callId := "c2", name := "read",
                       status := .executing })],
    tstamp := 500 }

/-- Engine state with one pending tool group (calls c1, c2) used in the
C3 witness scenario. -/
def c3S : MMState :=
  { container :=
      [{ elemId := 0, type := "tool_group", content := "",
         tools := [{ callId := "c1", name := "shell", status := .executing },
                   { callId := "c2", name := "read", status := .executing }],
         pendingText := false, pendingTools := true, tstamp := 500 }],
    messageCount := 0, lastAIMessage := none,
    pendingToolGroups := [(0, c3G)],
    completedToolCallIds := [], nextId := 1 }

/-- The finalized tool_group item (call c1 succeeded) of the C3 witness. -/
def c3Fin : Item :=
  { type := "tool_group", text := "",
    tools := [{ callId := "c1", name := "shell",
                status := ToolStatus.success }], id := 0 }

/-- C3 witness: one pending group with calls c1 and c2; the finalized
group with c1 matches it (it is in the index and shares one callId). -/
theorem c3_witness :
    ((0 : Nat), c3G) ∈ c3S.pendingToolGroups
  ∧ 0 < matchCount c3Fin.tools c3G := by
  have h := ((c3_finalize_tool_group c3S c3Fin 600 rfl (by decide)).1
    0 c3G (by decide))
  exact ⟨h.1, h.2.1⟩

end Auditaria

